import Mathlib

/-!
Shallow embedding of `cpp_to_rust_generator/src/new_impl/database.rs`:
the metadata store (`Database`), its Declaration Fact model (`CppItemData`),
provenance (`DatabaseItemSource`), the per-environment checker ledger
(`CppCheckerInfoList`), and the report-rendering traversal.

Payload types that live outside the given source slice (`Target`,
`CppOriginLocation`, `CppVisibility`, `CppTypeData`, `CppEnumValue`,
`CppMethod`, `CppClassField`, `CppBaseSpecifier`, `CppFfiMethod`) are
modelled from the spec, as noted on each one.
-/

set_option autoImplicit false

namespace Ritual

/-- Modelled from the spec: a Build Environment is identified by target
architecture, operating system, target family and ABI/environment.  The
fields are enumeration-like identifiers rendered by their name; they are
modelled as strings. -/
structure Target where
  arch : String
  os : String
  family : String
  env : String
deriving DecidableEq, Repr

/-- Modelled from the spec: the exact source location of a parser-discovered
declaration.  Only structural equality of locations matters to the core,
so it is modelled as an opaque location string. -/
structure CppOriginLocation where
  location : String
deriving DecidableEq, Repr

/-- Access visibility of a base-class relationship; the three variants are
the ones matched by the report renderer in the source. -/
inductive CppVisibility where
  | Public
  | Protected
  | Private
deriving DecidableEq, Repr

/-- Modelled from the spec: a C++ type descriptor whose only use in this
core is its pseudo-code rendering, so it is modelled by that rendering. -/
structure CppType where
  pseudo_code : String
deriving DecidableEq, Repr

def CppType.to_cpp_pseudo_code (t : CppType) : String :=
  t.pseudo_code

/-- Kind of a type declaration: an enum type, or a class type carrying its
base type descriptor (matched by the report renderer in the source). -/
inductive CppTypeDataKind where
  | Enum
  | Class (type_base : CppType)
deriving DecidableEq, Repr

/-- Modelled from the spec: a Type declaration fact is a name plus a kind. -/
structure CppTypeData where
  name : String
  kind : CppTypeDataKind
deriving DecidableEq, Repr

/-- Modelled from the spec: structural equality over all identifying
attributes of a Type fact. -/
def CppTypeData.is_same (a b : CppTypeData) : Bool :=
  decide (a = b)

/-- Modelled from the spec: an EnumValue fact is the owning enum name, the
value name and the numeric value. -/
structure CppEnumValue where
  enum_name : String
  name : String
  value : Int
deriving DecidableEq, Repr

/-- Modelled from the spec: structural equality over all identifying
attributes of an EnumValue fact. -/
def CppEnumValue.is_same (a b : CppEnumValue) : Bool :=
  decide (a = b)

/-- Modelled from the spec: a Method fact is a full signature descriptor,
rendered by its own short signature text. -/
structure CppMethod where
  signature : String
deriving DecidableEq, Repr

def CppMethod.short_text (m : CppMethod) : String :=
  m.signature

/-- Modelled from the spec: structural equality over all identifying
attributes of a Method fact. -/
def CppMethod.is_same (a b : CppMethod) : Bool :=
  decide (a = b)

/-- Modelled from the spec: a ClassField fact is the owning class plus the
field descriptor, rendered by its own short descriptor text. -/
structure CppClassField where
  owning_class : String
  descriptor : String
deriving DecidableEq, Repr

def CppClassField.short_text (f : CppClassField) : String :=
  f.descriptor

/-- Modelled from the spec: structural equality over all identifying
attributes of a ClassField fact. -/
def CppClassField.is_same (a b : CppClassField) : Bool :=
  decide (a = b)

/-- Modelled from the spec: a ClassBase fact records derived type, base
type, access visibility, virtual-ness and the base index for
multiple-inheritance ordering.  The field names are those read by the
report renderer in the source. -/
structure CppBaseSpecifier where
  derived_class_type : CppType
  base_class_type : CppType
  is_virtual : Bool
  visibility : CppVisibility
  base_index : Nat
deriving DecidableEq, Repr

/-- Modelled from the spec: structural equality over all identifying
attributes of a ClassBase fact. -/
def CppBaseSpecifier.is_same (a b : CppBaseSpecifier) : Bool :=
  decide (a = b)

/-- Build environment of a checker run (`CppCheckerEnv` in the source). -/
structure CppCheckerEnv where
  target : Target
  cpp_library_version : Option String
deriving DecidableEq, Repr

/-- Short identifying text of a build environment
(`CppCheckerEnv::short_text`). -/
def CppCheckerEnv.short_text (e : CppCheckerEnv) : String :=
  (e.cpp_library_version.getD "None") ++ "/" ++ e.target.arch ++ "-"
    ++ e.target.os ++ "-" ++ e.target.family ++ "-" ++ e.target.env

/-- Provenance of a database item (`DatabaseItemSource` in the source). -/
inductive DatabaseItemSource where
  | CppParser (include_file : Option String) (origin_location : Option CppOriginLocation)
  | Destructor
  | TemplateInstantiation
  | SignalArguments
deriving DecidableEq, Repr

/-- Whether the provenance is parser-discovered
(`DatabaseItemSource::is_parser`). -/
def DatabaseItemSource.is_parser_source : DatabaseItemSource → Bool
  | .CppParser _ _ => true
  | _ => false

/-- One checker outcome: an environment and an optional error message
(`CppCheckerInfo` in the source). -/
structure CppCheckerInfo where
  env : CppCheckerEnv
  error : Option String
deriving DecidableEq, Repr

/-- Checker ledger of one wrapper function (`CppCheckerInfoList`). -/
structure CppCheckerInfoList where
  items : List CppCheckerInfo
deriving DecidableEq, Repr

/-- Result of recording a checker outcome (`CppCheckerAddResult`). -/
inductive CppCheckerAddResult where
  | Added
  | Changed (old : Option String)
  | Unchanged
deriving DecidableEq, Repr

/-- Item-list level embedding of `CppCheckerInfoList::add`: find the first
outcome with a structurally equal environment; if found, compute the
result from the stored error and overwrite it in place; otherwise append
a new outcome at the end and report `Added`. -/
def addCheckerItem : List CppCheckerInfo → CppCheckerEnv → Option String →
    CppCheckerAddResult × List CppCheckerInfo
  | [], env, error => (.Added, [⟨env, error⟩])
  | i :: rest, env, error =>
    if i.env = env then
      ((if i.error = error then .Unchanged else .Changed i.error),
        { i with error := error } :: rest)
    else
      ((addCheckerItem rest env error).1, i :: (addCheckerItem rest env error).2)

/-- Embedding of `CppCheckerInfoList::add`, returning the result together with the
updated ledger. -/
def CppCheckerInfoList.add (l : CppCheckerInfoList) (env : CppCheckerEnv)
    (error : Option String) : CppCheckerAddResult × CppCheckerInfoList :=
  ((addCheckerItem l.items env error).1, ⟨(addCheckerItem l.items env error).2⟩)

/-- Modelled from the spec: a generated wrapper function carries its short
textual signature and its own checker ledger (`checks`, read by the
report renderer in the source). -/
structure CppFfiMethod where
  short_text : String
  checks : CppCheckerInfoList
deriving DecidableEq, Repr

/-- A Declaration Fact (`CppItemData` in the source). -/
inductive CppItemData where
  | Type (v : CppTypeData)
  | EnumValue (v : CppEnumValue)
  | Method (v : CppMethod)
  | ClassField (v : CppClassField)
  | ClassBase (v : CppBaseSpecifier)
deriving DecidableEq, Repr

/-- Structural equality of Declaration Facts (`CppItemData::is_same`):
facts of the same variant delegate to the payload relation, facts of
different variants are never the same. -/
def CppItemData.is_same : CppItemData → CppItemData → Bool
  | .Type v, .Type v2 => v.is_same v2
  | .EnumValue v, .EnumValue v2 => v.is_same v2
  | .Method v, .Method v2 => v.is_same v2
  | .ClassField v, .ClassField v2 => v.is_same v2
  | .ClassBase v, .ClassBase v2 => v.is_same v2
  | _, _ => false

/-- Constructor discriminator of a Declaration Fact, used to talk about
facts of different variants. -/
def CppItemData.ctorIdx : CppItemData → Nat
  | .Type _ => 0
  | .EnumValue _ => 1
  | .Method _ => 2
  | .ClassField _ => 3
  | .ClassBase _ => 4

/-- Textual rendering of a Declaration Fact (the `Display` impl for
`CppItemData` in the source).  Literal braces are written with hex
escapes. -/
def CppItemData.toDisplayString : CppItemData → String
  | .Type type1 =>
    match type1.kind with
    | .Enum => "enum " ++ type1.name
    | .Class type_base => "class " ++ type_base.to_cpp_pseudo_code
  | .Method method => method.short_text
  | .EnumValue value =>
    "enum " ++ value.enum_name ++ " \x7b " ++ value.name ++ " = "
      ++ toString value.value ++ ", ... \x7d"
  | .ClassField field => field.short_text
  | .ClassBase class_base =>
    let virtual_text := if class_base.is_virtual then "virtual " else ""
    let visibility_text :=
      match class_base.visibility with
      | .Public => "public"
      | .Protected => "protected"
      | .Private => "private"
    let index_text :=
      if class_base.base_index > 0 then
        " (index: " ++ toString class_base.base_index
      else
        ""
    "class " ++ class_base.derived_class_type.to_cpp_pseudo_code ++ " : "
      ++ virtual_text ++ visibility_text ++ " "
      ++ class_base.base_class_type.to_cpp_pseudo_code ++ index_text

/-- One catalog entry (`DatabaseItem` in the source). -/
structure DatabaseItem where
  cpp_data : CppItemData
  source : DatabaseItemSource
  cpp_ffi_methods : List CppFfiMethod
deriving DecidableEq, Repr

/-- The metadata store for one crate (`Database` in the source). -/
structure Database where
  crate_name : String
  items : List DatabaseItem
  environments : List CppCheckerEnv
deriving DecidableEq, Repr

/-- Embedding of `Database::empty`. -/
def Database.empty (crate_name : String) : Database :=
  { crate_name := crate_name, items := [], environments := [] }

/-- Item-list level embedding of `Database::add_cpp_data`: find the first
entry whose fact is structurally the same; if found, upgrade its
provenance when the new source is parser-discovered and the stored one is
not, and report `false`; otherwise append a fresh entry with an empty
wrapper list at the end and report `true`. -/
def addCppItem : List DatabaseItem → DatabaseItemSource → CppItemData →
    Bool × List DatabaseItem
  | [], s, d => (true, [⟨d, s, []⟩])
  | i :: rest, s, d =>
    if i.cpp_data.is_same d then
      (false,
        { i with source := if s.is_parser_source && !i.source.is_parser_source then s else i.source }
          :: rest)
    else
      ((addCppItem rest s d).1, i :: (addCppItem rest s d).2)

/-- Embedding of `Database::add_cpp_data`, returning the "new entry created" flag
together with the updated database. -/
def Database.add_cpp_data (db : Database) (source : DatabaseItemSource)
    (data : CppItemData) : Bool × Database :=
  ((addCppItem db.items source data).1, { db with items := (addCppItem db.items source data).2 })

/-- Pure embedding of the report traversal of `Database::print_as_html`:
one row per catalog entry in catalog order, carrying the fact rendering
and, nested, one row per wrapper function with its checker outcomes.  The
markup technology is external; the database is returned unchanged,
mirroring the shared borrow of the source. -/
def Database.renderReport (db : Database) :
    List (String × List (String × List (String × Option String))) × Database :=
  (db.items.map (fun item =>
    (item.cpp_data.toDisplayString,
      item.cpp_ffi_methods.map (fun m =>
        (m.short_text, m.checks.items.map (fun c => (c.env.short_text, c.error)))))),
    db)

/-- Folding a list of (provenance, fact) pairs into the database by
repeated `add_cpp_data` calls. -/
def ingestList (db : Database) (l : List (DatabaseItemSource × CppItemData)) : Database :=
  l.foldl (fun db p => (db.add_cpp_data p.1 p.2).2) db

/-- Folding a list of (environment, error) pairs into a checker ledger by
repeated `add` calls. -/
def recordAll (l : CppCheckerInfoList) (ops : List (CppCheckerEnv × Option String)) :
    CppCheckerInfoList :=
  ops.foldl (fun acc p => (acc.add p.1 p.2).2) l

/-- Replace the element at a given position of a list, leaving the list
unchanged when the position is out of range. -/
def modifyAt {α : Type} : List α → Nat → (α → α) → List α
  | [], _, _ => []
  | a :: rest, 0, f => f a :: rest
  | a :: rest, n + 1, f => a :: modifyAt rest n f

/-- An operation offered by the core itself: ingesting a fact through
`Database::add_cpp_data`, or calling `CppCheckerInfoList::add` on the
ledger of one wrapper function stored in the database (located by its
entry index and wrapper index; out-of-range indices touch nothing). -/
inductive DbOp where
  | ingest (source : DatabaseItemSource) (data : CppItemData)
  | check (i j : Nat) (env : CppCheckerEnv) (error : Option String)

/-- Apply one core operation to the database. -/
def applyDbOp (db : Database) : DbOp → Database
  | .ingest s d => (db.add_cpp_data s d).2
  | .check i j env error =>
    { db with
        items := modifyAt db.items i (fun item =>
          { item with
              cpp_ffi_methods := modifyAt item.cpp_ffi_methods j (fun m =>
                { m with checks := (m.checks.add env error).2 }) }) }

/-- Apply a sequence of core operations to the database. -/
def applyDbOps (db : Database) (ops : List DbOp) : Database :=
  ops.foldl applyDbOp db

/-- Modelled from the spec: recording a validation outcome for a build
environment against the Catalog.  No operation of the given source slice
populates the `environments` field (only the field itself is declared
there), so the registration step required by the spec is modelled here:
the ledger of the wrapper is updated through `CppCheckerInfoList::add` and the
environment joins the catalog-level registry if it is not yet a member. -/
def Database.recordValidation (db : Database) (i j : Nat) (env : CppCheckerEnv)
    (error : Option String) : Database :=
  let db2 := applyDbOp db (.check i j env error)
  { db2 with
      environments :=
        if env ∈ db2.environments then db2.environments
        else db2.environments ++ [env] }

/-- An operation against the whole catalog: fact ingestion or the
(spec-modelled) recording of a validation outcome. -/
inductive CatalogOp where
  | ingest (source : DatabaseItemSource) (data : CppItemData)
  | validate (i j : Nat) (env : CppCheckerEnv) (error : Option String)

/-- Apply one catalog operation. -/
def applyCatalogOp (db : Database) : CatalogOp → Database
  | .ingest s d => (db.add_cpp_data s d).2
  | .validate i j env error => db.recordValidation i j env error

/-- Apply a sequence of catalog operations. -/
def applyCatalogOps (db : Database) (ops : List CatalogOp) : Database :=
  ops.foldl applyCatalogOp db

/-- First catalog entry whose fact is structurally the same as the given
one, mirroring the scan of `Database::add_cpp_data`. -/
def lookupFact : List DatabaseItem → CppItemData → Option DatabaseItem
  | [], _ => none
  | i :: rest, d => if i.cpp_data.is_same d then some i else lookupFact rest d

/-- One merge step of provenances: an incoming parser-discovered source
replaces a stored non-parser one, anything else keeps the stored value. -/
def sourceStep (cur s : DatabaseItemSource) : DatabaseItemSource :=
  if s.is_parser_source && !cur.is_parser_source then s else cur

/-- Fold of `sourceStep` over the later sources of an entry. -/
def resolveSources (s : DatabaseItemSource) (rest : List DatabaseItemSource) :
    DatabaseItemSource :=
  rest.foldl sourceStep s

/-- Final provenance produced by ingesting a nonempty run of sources for
one fact, `none` for the empty run. -/
def resolveAll : List DatabaseItemSource → Option DatabaseItemSource
  | [] => none
  | s :: ss => some (resolveSources s ss)

/-- Sources of the pairs of a list whose fact is structurally the same as
the given fact, in list order. -/
def classSources (l : List (DatabaseItemSource × CppItemData)) (d : CppItemData) :
    List DatabaseItemSource :=
  (l.filter (fun p => p.2.is_same d)).map (fun p => p.1)

/-- First occurrence of every fact of the list, in first-seen order, with
later structurally-equal repetitions dropped. -/
def firstSeenFacts (facts : List CppItemData) : List CppItemData :=
  facts.foldl (fun acc d => if acc.any (fun x => x.is_same d) then acc else acc ++ [d]) []

/-- The (fact, provenance) pairs of the catalog entries, in catalog order. -/
def dbPairs (db : Database) : List (CppItemData × DatabaseItemSource) :=
  db.items.map (fun i => (i.cpp_data, i.source))

/-- No two entries of the item list have structurally-equal facts. -/
def ItemsInv (items : List DatabaseItem) : Prop :=
  List.Pairwise (fun a b => a.cpp_data.is_same b.cpp_data = false) items

/-- No two outcomes of the ledger item list share a build environment. -/
def CheckerInv (items : List CppCheckerInfo) : Prop :=
  List.Pairwise (fun a b => a.env ≠ b.env) items

/-- Side condition under which ingestion is order-independent: any two
pairs of the list with structurally-equal facts carry the same fact
value, and their origins agree whenever both are parser-discovered and
whenever neither is. -/
def GoodList (l : List (DatabaseItemSource × CppItemData)) : Prop :=
  ∀ p ∈ l, ∀ q ∈ l, p.2.is_same q.2 = true →
    p.2 = q.2 ∧
    (p.1.is_parser_source = true → q.1.is_parser_source = true → p.1 = q.1) ∧
    (p.1.is_parser_source = false → q.1.is_parser_source = false → p.1 = q.1)

/-! ## Basic lemmas about structural equality -/

theorem CppItemData.is_same_iff_eq (a b : CppItemData) : a.is_same b = true ↔ a = b := by
  cases a <;> cases b <;>
    simp [CppItemData.is_same, CppTypeData.is_same, CppEnumValue.is_same,
      CppMethod.is_same, CppClassField.is_same, CppBaseSpecifier.is_same]

theorem CppItemData.is_same_refl (a : CppItemData) : a.is_same a = true :=
  (CppItemData.is_same_iff_eq a a).mpr rfl

theorem CppItemData.is_same_eq_false_iff (a b : CppItemData) :
    a.is_same b = false ↔ a ≠ b := by
  rw [← Bool.not_eq_true, not_iff_not]
  exact CppItemData.is_same_iff_eq a b

/-! ## Lemmas about the item-level ingestion function -/

theorem addCppItem_of_no_match (items : List DatabaseItem) (s : DatabaseItemSource)
    (d : CppItemData) (h : ∀ i ∈ items, i.cpp_data.is_same d = false) :
    addCppItem items s d = (true, items ++ [⟨d, s, []⟩]) := by
  induction items with
  | nil => rfl
  | cons i rest ih =>
    have hi : i.cpp_data.is_same d = false := h i (List.mem_cons_self i rest)
    simp [addCppItem, hi, ih (fun x hx => h x (List.mem_cons_of_mem i hx))]

theorem addCppItem_of_match (l1 : List DatabaseItem) (e : DatabaseItem)
    (l2 : List DatabaseItem) (s : DatabaseItemSource) (d : CppItemData)
    (h1 : ∀ x ∈ l1, x.cpp_data.is_same d = false) (he : e.cpp_data.is_same d = true) :
    addCppItem (l1 ++ e :: l2) s d =
      (false,
        l1 ++ { e with source := if s.is_parser_source && !e.source.is_parser_source then s else e.source }
          :: l2) := by
  induction l1 with
  | nil => simp [addCppItem, he]
  | cons i rest ih =>
    have hi : i.cpp_data.is_same d = false := h1 i (List.mem_cons_self i rest)
    simp [addCppItem, hi, ih (fun x hx => h1 x (List.mem_cons_of_mem i hx))]

theorem sourceStep_idem (cur s : DatabaseItemSource) :
    sourceStep (sourceStep cur s) s = sourceStep cur s := by
  unfold sourceStep
  cases hs : s.is_parser_source <;> cases hc : cur.is_parser_source <;> simp [hs, hc]

theorem addCppItem_twice (items : List DatabaseItem) (s : DatabaseItemSource)
    (d : CppItemData) :
    addCppItem (addCppItem items s d).2 s d = (false, (addCppItem items s d).2) := by
  induction items with
  | nil =>
    show addCppItem [⟨d, s, []⟩] s d = _
    have hd : d.is_same d = true := CppItemData.is_same_refl d
    simp [addCppItem, hd, sourceStep]
  | cons i rest ih =>
    by_cases hi : i.cpp_data.is_same d = true
    · have h2 :
        addCppItem (i :: rest) s d =
          (false, { i with source := sourceStep i.source s } :: rest) := by
        simp [addCppItem, hi, sourceStep]
      rw [h2]
      have h3 :
          addCppItem ({ i with source := sourceStep i.source s } :: rest) s d =
            (false,
              { i with source := sourceStep (sourceStep i.source s) s } :: rest) := by
        simp [addCppItem, hi, sourceStep]
      simp [h3, sourceStep_idem]
    · have hi2 : i.cpp_data.is_same d = false := by
        cases h : i.cpp_data.is_same d
        · rfl
        · exact absurd h hi
      simp [addCppItem, hi2, ih]

theorem addCppItem_mem (items : List DatabaseItem) (s : DatabaseItemSource)
    (d : CppItemData) (x : DatabaseItem) (hx : x ∈ (addCppItem items s d).2) :
    (∃ y ∈ items, x.cpp_data = y.cpp_data) ∨ x.cpp_data = d := by
  induction items with
  | nil =>
    simp [addCppItem] at hx
    right
    rw [hx]
  | cons i rest ih =>
    by_cases hi : i.cpp_data.is_same d = true
    · simp [addCppItem, hi] at hx
      rcases hx with hx | hx
      · left; exact ⟨i, List.mem_cons_self i rest, by rw [hx]⟩
      · left; exact ⟨x, List.mem_cons_of_mem i hx, rfl⟩
    · have hi2 : i.cpp_data.is_same d = false := by
        cases h : i.cpp_data.is_same d
        · rfl
        · exact absurd h hi
      simp [addCppItem, hi2] at hx
      rcases hx with hx | hx
      · left; exact ⟨i, List.mem_cons_self i rest, by rw [hx]⟩
      · rcases ih hx with ⟨y, hy, hxy⟩ | hxd
        · left; exact ⟨y, List.mem_cons_of_mem i hy, hxy⟩
        · right; exact hxd

theorem addCppItem_map_cpp_data (items : List DatabaseItem) (s : DatabaseItemSource)
    (d : CppItemData) :
    (addCppItem items s d).2.map (fun i => i.cpp_data) =
      if items.any (fun i => i.cpp_data.is_same d) then
        items.map (fun i => i.cpp_data)
      else
        items.map (fun i => i.cpp_data) ++ [d] := by
  induction items with
  | nil => simp [addCppItem]
  | cons i rest ih =>
    by_cases hi : i.cpp_data.is_same d = true
    · simp [addCppItem, hi]
    · have hi2 : i.cpp_data.is_same d = false := by
        cases h : i.cpp_data.is_same d
        · rfl
        · exact absurd h hi
      rcases Bool.eq_false_or_eq_true (rest.any (fun i => i.cpp_data.is_same d)) with hr | hr <;>
        simp [addCppItem, hi2, ih, hr]

theorem addCppItem_map_of_match (items : List DatabaseItem) (s : DatabaseItemSource)
    (d : CppItemData) (h : ∃ i ∈ items, i.cpp_data.is_same d = true) :
    (addCppItem items s d).1 = false ∧
      (addCppItem items s d).2.map (fun i => (i.cpp_data, i.cpp_ffi_methods)) =
        items.map (fun i => (i.cpp_data, i.cpp_ffi_methods)) := by
  induction items with
  | nil => simp at h
  | cons i rest ih =>
    by_cases hi : i.cpp_data.is_same d = true
    · simp [addCppItem, hi]
    · have hi2 : i.cpp_data.is_same d = false := by
        cases hb : i.cpp_data.is_same d
        · rfl
        · exact absurd hb hi
      have hrest : ∃ x ∈ rest, x.cpp_data.is_same d = true := by
        rcases h with ⟨x, hx, hsame⟩
        rcases List.mem_cons.mp hx with rfl | hx2
        · exact absurd hsame hi
        · exact ⟨x, hx2, hsame⟩
      have := ih hrest
      simp [addCppItem, hi2, this.1, this.2]

theorem addCppItem_filter_length (items : List DatabaseItem) (s : DatabaseItemSource)
    (d : CppItemData) (h : ∀ i ∈ items, i.cpp_data.is_same d = false) :
    ((addCppItem items s d).2.filter (fun i => i.cpp_data.is_same d)).length = 1 := by
  rw [addCppItem_of_no_match items s d h]
  rw [List.filter_append]
  have h1 : items.filter (fun i => i.cpp_data.is_same d) = [] := by
    rw [List.filter_eq_nil_iff]
    intro a ha
    simp [h a ha]
  simp [h1, CppItemData.is_same_refl]

/-- C1: ingesting a fact with no structurally-equal existing entry appends
a new entry with that fact, that origin and an empty wrapper list, and
returns `true`; ingesting a fact that matches an existing entry adds no
entry (facts and wrapper lists are untouched) and returns `false`; hence
a second back-to-back ingest of the same (origin, fact) pair changes
nothing, returns `false`, and exactly one matching entry exists. -/
theorem ingest_dedup_append_spec (db : Database) (source : DatabaseItemSource)
    (data : CppItemData) :
    ((∀ i ∈ db.items, i.cpp_data.is_same data = false) →
      db.add_cpp_data source data =
        (true, { db with items := db.items ++ [⟨data, source, []⟩] })) ∧
    ((∃ i ∈ db.items, i.cpp_data.is_same data = true) →
      (db.add_cpp_data source data).1 = false ∧
        (db.add_cpp_data source data).2.items.map (fun i => (i.cpp_data, i.cpp_ffi_methods)) =
          db.items.map (fun i => (i.cpp_data, i.cpp_ffi_methods))) ∧
    ((db.add_cpp_data source data).2.add_cpp_data source data =
      (false, (db.add_cpp_data source data).2)) ∧
    ((∀ i ∈ db.items, i.cpp_data.is_same data = false) →
      ((db.add_cpp_data source data).2.items.filter
          (fun i => i.cpp_data.is_same data)).length = 1) := by
  refine ⟨?_, ?_, ?_, ?_⟩
  · intro h
    simp [Database.add_cpp_data, addCppItem_of_no_match db.items source data h]
  · intro h
    have := addCppItem_map_of_match db.items source data h
    exact ⟨this.1, this.2⟩
  · have := addCppItem_twice db.items source data
    simp [Database.add_cpp_data, this]
  · intro h
    exact addCppItem_filter_length db.items source data h

/-- Witness for C1 at a concrete database, origin and fact. -/
theorem ingest_dedup_append_spec_witness :
    (Database.empty "crate0").add_cpp_data .Destructor (.Type ⟨"A", .Enum⟩) =
      (true,
        { crate_name := "crate0",
          items := [⟨.Type ⟨"A", .Enum⟩, .Destructor, []⟩],
          environments := [] }) ∧
    (((Database.empty "crate0").add_cpp_data .Destructor (.Type ⟨"A", .Enum⟩)).2.items.filter
        (fun i => i.cpp_data.is_same (.Type ⟨"A", .Enum⟩))).length = 1 := by
  have h := ingest_dedup_append_spec (Database.empty "crate0") .Destructor (.Type ⟨"A", .Enum⟩)
  have hempty : ∀ i ∈ (Database.empty "crate0").items, i.cpp_data.is_same (.Type ⟨"A", .Enum⟩) = false := by
    intro i hi
    simp [Database.empty] at hi
  refine ⟨?_, h.2.2.2 hempty⟩
  have h1 := h.1 hempty
  simpa [Database.empty] using h1

/-- C2: when ingestion finds a structurally-equal entry, the provenance of
that entry is replaced by the supplied origin exactly when that origin is
parser-discovered and the stored one is not; in every other case it is
kept; the stored fact and wrapper list of the entry, and all other entries,
are unmodified, and the call returns `false`. -/
theorem ingest_match_provenance_spec (db : Database) (source : DatabaseItemSource)
    (data : CppItemData) (l1 : List DatabaseItem) (e : DatabaseItem)
    (l2 : List DatabaseItem) (hitems : db.items = l1 ++ e :: l2)
    (h1 : ∀ x ∈ l1, x.cpp_data.is_same data = false)
    (he : e.cpp_data.is_same data = true) :
    db.add_cpp_data source data =
      (false,
        { db with
            items :=
              l1 ++
                { e with
                    source :=
                      if source.is_parser_source && !e.source.is_parser_source then source
                      else e.source } :: l2 }) := by
  simp [Database.add_cpp_data, hitems, addCppItem_of_match l1 e l2 source data h1 he]

/-- Witness for C2: a parser-discovered origin upgrades the provenance of
a synthesized entry in place. -/
theorem ingest_match_provenance_spec_witness :
    ({ crate_name := "crate0",
       items := [⟨.Type ⟨"A", .Enum⟩, .Destructor, []⟩],
       environments := [] } : Database).add_cpp_data
        (.CppParser (some "a.h") (some ⟨"a.h:3"⟩)) (.Type ⟨"A", .Enum⟩) =
      (false,
        { crate_name := "crate0",
          items := [⟨.Type ⟨"A", .Enum⟩, .CppParser (some "a.h") (some ⟨"a.h:3"⟩), []⟩],
          environments := [] }) := by
  have h := ingest_match_provenance_spec
    ({ crate_name := "crate0",
       items := [⟨.Type ⟨"A", .Enum⟩, .Destructor, []⟩],
       environments := [] } : Database)
    (.CppParser (some "a.h") (some ⟨"a.h:3"⟩)) (.Type ⟨"A", .Enum⟩)
    [] ⟨.Type ⟨"A", .Enum⟩, .Destructor, []⟩ [] rfl (by intro x hx; simp at hx)
    (by decide)
  simpa using h

/-! ## Lemmas about the checker ledger -/

theorem addCheckerItem_of_no_match (items : List CppCheckerInfo) (env : CppCheckerEnv)
    (error : Option String) (h : ∀ i ∈ items, i.env ≠ env) :
    addCheckerItem items env error = (.Added, items ++ [⟨env, error⟩]) := by
  induction items with
  | nil => rfl
  | cons i rest ih =>
    have hi : ¬(i.env = env) := h i (List.mem_cons_self i rest)
    simp [addCheckerItem, hi, ih (fun x hx => h x (List.mem_cons_of_mem i hx))]

theorem addCheckerItem_of_match (l1 : List CppCheckerInfo) (e : CppCheckerInfo)
    (l2 : List CppCheckerInfo) (env : CppCheckerEnv) (error : Option String)
    (h1 : ∀ x ∈ l1, x.env ≠ env) (he : e.env = env) :
    addCheckerItem (l1 ++ e :: l2) env error =
      ((if e.error = error then .Unchanged else .Changed e.error),
        l1 ++ { e with error := error } :: l2) := by
  induction l1 with
  | nil => simp [addCheckerItem, he]
  | cons i rest ih =>
    have hi : ¬(i.env = env) := h1 i (List.mem_cons_self i rest)
    simp [addCheckerItem, hi, ih (fun x hx => h1 x (List.mem_cons_of_mem i hx))]

theorem addCheckerItem_mem (items : List CppCheckerInfo) (env : CppCheckerEnv)
    (error : Option String) (x : CppCheckerInfo)
    (hx : x ∈ (addCheckerItem items env error).2) :
    (∃ y ∈ items, x.env = y.env) ∨ x.env = env := by
  induction items with
  | nil =>
    simp [addCheckerItem] at hx
    right
    rw [hx]
  | cons i rest ih =>
    by_cases hi : i.env = env
    · simp [addCheckerItem, hi] at hx
      rcases hx with hx | hx
      · right; rw [hx]
      · left; exact ⟨x, List.mem_cons_of_mem i hx, rfl⟩
    · simp [addCheckerItem, hi] at hx
      rcases hx with hx | hx
      · left; exact ⟨i, List.mem_cons_self i rest, by rw [hx]⟩
      · rcases ih hx with ⟨y, hy, hxy⟩ | hxe
        · left; exact ⟨y, List.mem_cons_of_mem i hy, hxy⟩
        · right; exact hxe

theorem checkerInv_addCheckerItem (items : List CppCheckerInfo) (env : CppCheckerEnv)
    (error : Option String) (h : CheckerInv items) :
    CheckerInv (addCheckerItem items env error).2 := by
  induction items with
  | nil =>
    simp [addCheckerItem, CheckerInv]
  | cons i rest ih =>
    rcases (List.pairwise_cons.mp h) with ⟨hhead, hrest⟩
    by_cases hi : i.env = env
    · have : CheckerInv ({ i with error := error } :: rest) := by
        rw [CheckerInv, List.pairwise_cons]
        exact ⟨hhead, hrest⟩
      simpa [CheckerInv, addCheckerItem, hi] using this
    · have hrest2 : CheckerInv (addCheckerItem rest env error).2 := ih hrest
      rw [CheckerInv]
      simp only [addCheckerItem, hi, if_false, ite_false]
      rw [List.pairwise_cons]
      constructor
      · intro x hx
        rcases addCheckerItem_mem rest env error x hx with ⟨y, hy, hxy⟩ | hxe
        · rw [hxy]; exact hhead y hy
        · rw [hxe]; intro hcontra; exact hi hcontra
      · exact hrest2

theorem checkerInv_recordAll (l : CppCheckerInfoList)
    (ops : List (CppCheckerEnv × Option String)) (h : CheckerInv l.items) :
    CheckerInv (recordAll l ops).items := by
  induction ops generalizing l with
  | nil => exact h
  | cons p rest ih =>
    have hstep : CheckerInv ((l.add p.1 p.2).2).items :=
      checkerInv_addCheckerItem l.items p.1 p.2 h
    exact ih _ hstep

theorem checkerInv_filter_le_one (items : List CppCheckerInfo) (env : CppCheckerEnv)
    (h : CheckerInv items) :
    (items.filter (fun i => i.env = env)).length ≤ 1 := by
  induction items with
  | nil => simp
  | cons i rest ih =>
    rcases (List.pairwise_cons.mp h) with ⟨hhead, hrest⟩
    by_cases hi : i.env = env
    · have hfrest : rest.filter (fun x => x.env = env) = [] := by
        rw [List.filter_eq_nil_iff]
        intro x hx
        have := hhead x hx
        simp only [decide_eq_true_eq]
        rw [← hi]
        intro hc
        exact this hc.symm
      simp [List.filter_cons, hi, hfrest]
    · simp [List.filter_cons, hi]
      exact ih hrest

/-- C4: recording an outcome appends (env, error) and reports `Added` when
no outcome with that environment exists; when the first outcome with that
environment carries a different error, it alone is overwritten in place
and `Changed` carries the previous error; when it carries the identical
error, the ledger is unchanged and `Unchanged` is reported. -/
theorem checker_record_spec (l : CppCheckerInfoList) (env : CppCheckerEnv)
    (error : Option String) :
    ((∀ i ∈ l.items, i.env ≠ env) →
      l.add env error = (.Added, ⟨l.items ++ [⟨env, error⟩]⟩)) ∧
    (∀ (l1 : List CppCheckerInfo) (e : CppCheckerInfo) (l2 : List CppCheckerInfo),
      l.items = l1 ++ e :: l2 → (∀ x ∈ l1, x.env ≠ env) → e.env = env →
      ((e.error = error → l.add env error = (.Unchanged, l)) ∧
       (e.error ≠ error →
         l.add env error = (.Changed e.error, ⟨l1 ++ { e with error := error } :: l2⟩)))) := by
  constructor
  · intro h
    simp [CppCheckerInfoList.add, addCheckerItem_of_no_match l.items env error h]
  · intro l1 e l2 hitems h1 he
    constructor
    · intro herr
      have he2 : ({ e with error := error } : CppCheckerInfo) = e := by
        cases e
        simp_all
      have heq : addCheckerItem (l1 ++ e :: l2) env error = (.Unchanged, l1 ++ e :: l2) := by
        rw [addCheckerItem_of_match l1 e l2 env error h1 he, if_pos herr, he2]
      have hres : l.add env error = (.Unchanged, ⟨l1 ++ e :: l2⟩) := by
        simp [CppCheckerInfoList.add, hitems, heq]
      rw [hres, ← hitems]
    · intro herr
      have := addCheckerItem_of_match l1 e l2 env error h1 he
      simp [CppCheckerInfoList.add, hitems, this, herr]

/-- Witness for C4: overwriting a stored success with a link error returns
`Changed` carrying the old `none`. -/
theorem checker_record_spec_witness :
    (⟨[⟨⟨⟨"x86_64", "linux", "unix", "gnu"⟩, some "5.9"⟩, none⟩]⟩ : CppCheckerInfoList).add
        ⟨⟨"x86_64", "linux", "unix", "gnu"⟩, some "5.9"⟩ (some "link error") =
      (.Changed none,
        ⟨[⟨⟨⟨"x86_64", "linux", "unix", "gnu"⟩, some "5.9"⟩, some "link error"⟩]⟩) := by
  have h := (checker_record_spec
      ⟨[⟨⟨⟨"x86_64", "linux", "unix", "gnu"⟩, some "5.9"⟩, none⟩]⟩
      ⟨⟨"x86_64", "linux", "unix", "gnu"⟩, some "5.9"⟩ (some "link error")).2
    [] ⟨⟨⟨"x86_64", "linux", "unix", "gnu"⟩, some "5.9"⟩, none⟩ []
    rfl (by intro x hx; simp at hx) rfl
  simpa using h.2 (by simp)

/-- C5: the empty ledger has pairwise distinct build environments, every
`add` call preserves that, and hence every ledger reachable from the empty
one holds at most one outcome per build environment. -/
theorem checker_ledger_env_unique (env : CppCheckerEnv) :
    CheckerInv ((⟨[]⟩ : CppCheckerInfoList).items) ∧
    (∀ (l : CppCheckerInfoList) (env2 : CppCheckerEnv) (error : Option String),
      CheckerInv l.items → CheckerInv ((l.add env2 error).2).items) ∧
    (∀ ops, CheckerInv (recordAll ⟨[]⟩ ops).items) ∧
    (∀ ops, ((recordAll ⟨[]⟩ ops).items.filter (fun i => i.env = env)).length ≤ 1) := by
  refine ⟨List.Pairwise.nil, ?_, ?_, ?_⟩
  · intro l env2 error h
    exact checkerInv_addCheckerItem l.items env2 error h
  · intro ops
    exact checkerInv_recordAll ⟨[]⟩ ops List.Pairwise.nil
  · intro ops
    exact checkerInv_filter_le_one _ env (checkerInv_recordAll ⟨[]⟩ ops List.Pairwise.nil)

/-- Witness for C5 at a concrete environment, ledger and operation list. -/
theorem checker_ledger_env_unique_witness :
    CheckerInv
      ((recordAll ⟨[]⟩
          [(⟨⟨"x86_64", "linux", "unix", "gnu"⟩, some "5.9"⟩, none),
            (⟨⟨"x86_64", "linux", "unix", "gnu"⟩, some "5.9"⟩, some "err")]).items) ∧
    ((recordAll ⟨[]⟩
        [(⟨⟨"x86_64", "linux", "unix", "gnu"⟩, some "5.9"⟩, none),
          (⟨⟨"x86_64", "linux", "unix", "gnu"⟩, some "5.9"⟩, some "err")]).items.filter
      (fun i => i.env = ⟨⟨"x86_64", "linux", "unix", "gnu"⟩, some "5.9"⟩)).length ≤ 1 := by
  have h := checker_ledger_env_unique ⟨⟨"x86_64", "linux", "unix", "gnu"⟩, some "5.9"⟩
  exact ⟨h.2.2.1 _, h.2.2.2 _⟩

/-! ## Catalog invariant and non-deletion -/

theorem itemsInv_addCppItem (items : List DatabaseItem) (s : DatabaseItemSource)
    (d : CppItemData) (h : ItemsInv items) :
    ItemsInv (addCppItem items s d).2 := by
  induction items with
  | nil => simp [addCppItem, ItemsInv]
  | cons i rest ih =>
    rcases (List.pairwise_cons.mp h) with ⟨hhead, hrest⟩
    by_cases hi : i.cpp_data.is_same d = true
    · have hinv : ItemsInv
          ({ i with source := if s.is_parser_source && !i.source.is_parser_source then s else i.source }
            :: rest) := by
        rw [ItemsInv, List.pairwise_cons]
        exact ⟨hhead, hrest⟩
      simpa [ItemsInv, addCppItem, hi] using hinv
    · have hi2 : i.cpp_data.is_same d = false := by
        cases hb : i.cpp_data.is_same d
        · rfl
        · exact absurd hb hi
      have hrest2 : ItemsInv (addCppItem rest s d).2 := ih hrest
      rw [ItemsInv]
      simp only [addCppItem, hi2, Bool.false_eq_true, if_false, ite_false]
      rw [List.pairwise_cons]
      constructor
      · intro x hx
        rcases addCppItem_mem rest s d x hx with ⟨y, hy, hxy⟩ | hxd
        · rw [hxy]; exact hhead y hy
        · rw [hxd]; exact hi2
      · exact hrest2

theorem addCppItem_map_append (items : List DatabaseItem) (s : DatabaseItemSource)
    (d : CppItemData) :
    ∃ tail,
      (addCppItem items s d).2.map (fun i => (i.cpp_data, i.cpp_ffi_methods)) =
        items.map (fun i => (i.cpp_data, i.cpp_ffi_methods)) ++ tail := by
  induction items with
  | nil => exact ⟨[(d, [])], by simp [addCppItem]⟩
  | cons i rest ih =>
    by_cases hi : i.cpp_data.is_same d = true
    · exact ⟨[], by simp [addCppItem, hi]⟩
    · have hi2 : i.cpp_data.is_same d = false := by
        cases hb : i.cpp_data.is_same d
        · rfl
        · exact absurd hb hi
      rcases ih with ⟨tail, htail⟩
      exact ⟨tail, by simp [addCppItem, hi2, htail]⟩

theorem addCheckerItem_map_append (items : List CppCheckerInfo) (env : CppCheckerEnv)
    (error : Option String) :
    ∃ tail,
      (addCheckerItem items env error).2.map (fun i => i.env) =
        items.map (fun i => i.env) ++ tail := by
  induction items with
  | nil => exact ⟨[env], by simp [addCheckerItem]⟩
  | cons i rest ih =>
    by_cases hi : i.env = env
    · exact ⟨[], by simp [addCheckerItem, hi]⟩
    · rcases ih with ⟨tail, htail⟩
      exact ⟨tail, by simp [addCheckerItem, hi, htail]⟩

/-- C6: the empty catalog has no two entries with structurally-equal
facts, ingestion preserves that, and no operation of the core removes a
catalog entry (its fact and wrapper list survive in place) or a checker
outcome (its environment survives in place); the report rendering leaves
the database unchanged. -/
theorem catalog_unique_and_non_deletion :
    (∀ n, ItemsInv (Database.empty n).items) ∧
    (∀ (db : Database) (s : DatabaseItemSource) (d : CppItemData),
      ItemsInv db.items → ItemsInv ((db.add_cpp_data s d).2).items) ∧
    (∀ (db : Database) (s : DatabaseItemSource) (d : CppItemData), ∃ tail,
      ((db.add_cpp_data s d).2).items.map (fun i => (i.cpp_data, i.cpp_ffi_methods)) =
        db.items.map (fun i => (i.cpp_data, i.cpp_ffi_methods)) ++ tail) ∧
    (∀ (l : CppCheckerInfoList) (env : CppCheckerEnv) (error : Option String), ∃ tail,
      ((l.add env error).2).items.map (fun i => i.env) =
        l.items.map (fun i => i.env) ++ tail) ∧
    (∀ db : Database, (db.renderReport).2 = db) := by
  refine ⟨?_, ?_, ?_, ?_, ?_⟩
  · intro n
    simp [Database.empty, ItemsInv]
  · intro db s d h
    exact itemsInv_addCppItem db.items s d h
  · intro db s d
    exact addCppItem_map_append db.items s d
  · intro l env error
    exact addCheckerItem_map_append l.items env error
  · intro db
    rfl

/-- Witness for C6 at a concrete database and ingestion. -/
theorem catalog_unique_and_non_deletion_witness :
    ItemsInv (((Database.empty "crate0").add_cpp_data .Destructor
      (.Type ⟨"A", .Enum⟩)).2).items := by
  exact catalog_unique_and_non_deletion.2.1 (Database.empty "crate0") .Destructor
    (.Type ⟨"A", .Enum⟩) (by simp [Database.empty, ItemsInv])

/-! ## Facts of different variants -/

/-- C9: facts of different variants are never structurally the same, so
ingesting one of each always produces separate catalog entries. -/
theorem different_variants_separate_entries (a b : CppItemData)
    (h : a.ctorIdx ≠ b.ctorIdx) :
    a.is_same b = false ∧
    (∀ (n : String) (o1 o2 : DatabaseItemSource),
      (ingestList (Database.empty n) [(o1, a), (o2, b)]).items.map (fun i => i.cpp_data) =
        [a, b]) := by
  have hfalse : a.is_same b = false := by
    cases a <;> cases b <;> first
      | (exact absurd rfl h)
      | rfl
  refine ⟨hfalse, ?_⟩
  intro n o1 o2
  have hrefl : a.is_same a = true := CppItemData.is_same_refl a
  simp [ingestList, Database.add_cpp_data, Database.empty, addCppItem, hfalse]

/-- Witness for C9: a Type fact and a Method fact stay separate. -/
theorem different_variants_separate_entries_witness :
    (CppItemData.Type ⟨"A", .Enum⟩).is_same (.Method ⟨"void f()"⟩) = false ∧
    (ingestList (Database.empty "crate0")
        [(.Destructor, .Type ⟨"A", .Enum⟩), (.Destructor, .Method ⟨"void f()"⟩)]).items.map
      (fun i => i.cpp_data) = [.Type ⟨"A", .Enum⟩, .Method ⟨"void f()"⟩] := by
  have h := different_variants_separate_entries (.Type ⟨"A", .Enum⟩) (.Method ⟨"void f()"⟩)
    (by decide)
  exact ⟨h.1, h.2 "crate0" .Destructor .Destructor⟩

/-! ## The environment registry -/

theorem applyDbOp_preserves (db : Database) (op : DbOp) :
    (applyDbOp db op).environments = db.environments ∧
    (applyDbOp db op).crate_name = db.crate_name := by
  cases op <;> simp [applyDbOp, Database.add_cpp_data]

/-- C10: no operation of the core itself populates the environment
registry of the catalog: after any sequence of `add_cpp_data` calls and
`CppCheckerInfoList::add` calls on ledgers stored in the database, a
catalog created by `Database::empty` still has an empty environments list
and its original crate name. -/
theorem core_ops_leave_registry_empty (n : String) (ops : List DbOp) :
    (applyDbOps (Database.empty n) ops).environments = [] ∧
    (applyDbOps (Database.empty n) ops).crate_name = n := by
  suffices h : ∀ (db : Database) (ops2 : List DbOp),
      (applyDbOps db ops2).environments = db.environments ∧
      (applyDbOps db ops2).crate_name = db.crate_name by
    rcases h (Database.empty n) ops with ⟨h1, h2⟩
    exact ⟨h1, h2⟩
  intro db ops2
  induction ops2 generalizing db with
  | nil => exact ⟨rfl, rfl⟩
  | cons op rest ih =>
    rcases applyDbOp_preserves db op with ⟨h1, h2⟩
    rcases ih (applyDbOp db op) with ⟨h3, h4⟩
    exact ⟨by rw [applyDbOps] at *; simp only [List.foldl_cons] at *; rw [h3, h1],
      by rw [applyDbOps] at *; simp only [List.foldl_cons] at *; rw [h4, h2]⟩

/-- C7: recording a validation outcome (spec-modelled registration)
makes the environment a member of the catalog registry, every catalog
operation only ever appends to the registry, and membership once gained
is kept by any later sequence of operations. -/
theorem environment_registry_monotone :
    (∀ (db : Database) (i j : Nat) (env : CppCheckerEnv) (error : Option String),
      env ∈ (db.recordValidation i j env error).environments) ∧
    (∀ (db : Database) (op : CatalogOp), ∃ tail,
      (applyCatalogOp db op).environments = db.environments ++ tail) ∧
    (∀ (db : Database) (env : CppCheckerEnv) (ops : List CatalogOp),
      env ∈ db.environments → env ∈ (applyCatalogOps db ops).environments) := by
  have h1 : ∀ (db : Database) (i j : Nat) (env : CppCheckerEnv) (error : Option String),
      env ∈ (db.recordValidation i j env error).environments := by
    intro db i j env error
    by_cases hmem : env ∈ (applyDbOp db (.check i j env error)).environments
    · simp [Database.recordValidation, hmem]
    · simp [Database.recordValidation, hmem]
  have h2 : ∀ (db : Database) (op : CatalogOp), ∃ tail,
      (applyCatalogOp db op).environments = db.environments ++ tail := by
    intro db op
    cases op with
    | ingest s d => exact ⟨[], by simp [applyCatalogOp, Database.add_cpp_data]⟩
    | validate i j env error =>
      have henv : (applyDbOp db (.check i j env error)).environments = db.environments :=
        (applyDbOp_preserves db (.check i j env error)).1
      by_cases hmem : env ∈ db.environments
      · exact ⟨[], by simp [applyCatalogOp, Database.recordValidation, henv, hmem]⟩
      · exact ⟨[env], by simp [applyCatalogOp, Database.recordValidation, henv, hmem]⟩
  refine ⟨h1, h2, ?_⟩
  intro db env ops hmem
  induction ops generalizing db with
  | nil => exact hmem
  | cons op rest ih =>
    have hstep : env ∈ (applyCatalogOp db op).environments := by
      rcases h2 db op with ⟨tail, htail⟩
      rw [htail]
      exact List.mem_append_left tail hmem
    simpa [applyCatalogOps] using ih (applyCatalogOp db op) hstep

/-- Witness for C7 at a concrete catalog and environment. -/
theorem environment_registry_monotone_witness :
    (⟨⟨"x86_64", "linux", "unix", "gnu"⟩, none⟩ : CppCheckerEnv) ∈
      ((Database.empty "crate0").recordValidation 0 0
        ⟨⟨"x86_64", "linux", "unix", "gnu"⟩, none⟩ none).environments ∧
    (⟨⟨"x86_64", "linux", "unix", "gnu"⟩, none⟩ : CppCheckerEnv) ∈
      (applyCatalogOps
        { crate_name := "crate0", items := [],
          environments := [⟨⟨"x86_64", "linux", "unix", "gnu"⟩, none⟩] }
        [.ingest .Destructor (.Type ⟨"A", .Enum⟩)]).environments := by
  refine ⟨environment_registry_monotone.1 (Database.empty "crate0") 0 0
    ⟨⟨"x86_64", "linux", "unix", "gnu"⟩, none⟩ none, ?_⟩
  exact environment_registry_monotone.2.2
    { crate_name := "crate0", items := [],
      environments := [⟨⟨"x86_64", "linux", "unix", "gnu"⟩, none⟩] }
    ⟨⟨"x86_64", "linux", "unix", "gnu"⟩, none⟩
    [.ingest .Destructor (.Type ⟨"A", .Enum⟩)]
    (by simp)

/-! ## Characterization of repeated ingestion -/

/-- Item-list form of `ingestList`. -/
def itemsIngest (items : List DatabaseItem)
    (l : List (DatabaseItemSource × CppItemData)) : List DatabaseItem :=
  l.foldl (fun its p => (addCppItem its p.1 p.2).2) items

theorem ingestList_items (db : Database) (l : List (DatabaseItemSource × CppItemData)) :
    (ingestList db l).items = itemsIngest db.items l := by
  induction l generalizing db with
  | nil => rfl
  | cons p rest ih =>
    show (ingestList ((db.add_cpp_data p.1 p.2).2) rest).items = _
    rw [ih]
    rfl

theorem lookupFact_some (items : List DatabaseItem) (d : CppItemData) (e : DatabaseItem)
    (h : lookupFact items d = some e) : e ∈ items ∧ e.cpp_data.is_same d = true := by
  induction items with
  | nil => simp [lookupFact] at h
  | cons i rest ih =>
    by_cases hi : i.cpp_data.is_same d = true
    · simp [lookupFact, hi] at h
      rw [← h]
      exact ⟨List.mem_cons_self i rest, hi⟩
    · simp [lookupFact, hi] at h
      rcases ih h with ⟨hmem, hsame⟩
      exact ⟨List.mem_cons_of_mem i hmem, hsame⟩

theorem lookupFact_addCppItem_same (items : List DatabaseItem) (s : DatabaseItemSource)
    (d : CppItemData) :
    lookupFact (addCppItem items s d).2 d =
      match lookupFact items d with
      | some e => some { e with source := sourceStep e.source s }
      | none => some ⟨d, s, []⟩ := by
  induction items with
  | nil =>
    simp [addCppItem, lookupFact, CppItemData.is_same_refl]
  | cons i rest ih =>
    by_cases hi : i.cpp_data.is_same d = true
    · simp [addCppItem, lookupFact, hi, sourceStep]
    · have hi2 : i.cpp_data.is_same d = false := by
        cases hb : i.cpp_data.is_same d
        · rfl
        · exact absurd hb hi
      simp [addCppItem, lookupFact, hi2, ih]

theorem lookupFact_addCppItem_other (items : List DatabaseItem) (s : DatabaseItemSource)
    (p d : CppItemData) (hp : p.is_same d = false) :
    lookupFact (addCppItem items s p).2 d = lookupFact items d := by
  induction items with
  | nil =>
    simp [addCppItem, lookupFact, hp]
  | cons i rest ih =>
    by_cases hi : i.cpp_data.is_same p = true
    · have hieq : i.cpp_data = p := (CppItemData.is_same_iff_eq i.cpp_data p).mp hi
      have hid : i.cpp_data.is_same d = false := by rw [hieq]; exact hp
      simp [addCppItem, lookupFact, hi, hid]
    · have hi2 : i.cpp_data.is_same p = false := by
        cases hb : i.cpp_data.is_same p
        · rfl
        · exact absurd hb hi
      by_cases hid : i.cpp_data.is_same d = true
      · simp [addCppItem, lookupFact, hi2, hid]
      · have hid2 : i.cpp_data.is_same d = false := by
          cases hb : i.cpp_data.is_same d
          · rfl
          · exact absurd hb hid
        simp [addCppItem, lookupFact, hi2, hid2, ih]

theorem resolveSources_cons (x s : DatabaseItemSource) (ss : List DatabaseItemSource) :
    resolveSources x (s :: ss) = resolveSources (sourceStep x s) ss := rfl

theorem classSources_cons (p : DatabaseItemSource × CppItemData)
    (l : List (DatabaseItemSource × CppItemData)) (d : CppItemData) :
    classSources (p :: l) d =
      if p.2.is_same d then p.1 :: classSources l d else classSources l d := by
  by_cases hp : p.2.is_same d = true
  · simp [classSources, List.filter_cons, hp]
  · have hp2 : p.2.is_same d = false := by
      cases hb : p.2.is_same d
      · rfl
      · exact absurd hb hp
    simp [classSources, List.filter_cons, hp2]

theorem lookupFact_itemsIngest (l : List (DatabaseItemSource × CppItemData))
    (items : List DatabaseItem) (d : CppItemData) :
    lookupFact (itemsIngest items l) d =
      match lookupFact items d with
      | some e => some { e with source := resolveSources e.source (classSources l d) }
      | none =>
        match classSources l d with
        | [] => none
        | s :: ss => some ⟨d, resolveSources s ss, []⟩ := by
  induction l generalizing items with
  | nil =>
    cases h : lookupFact items d with
    | none => simp [itemsIngest, classSources, h]
    | some e => simp [itemsIngest, classSources, resolveSources, h]
  | cons p rest ih =>
    have hstep : itemsIngest items (p :: rest) = itemsIngest (addCppItem items p.1 p.2).2 rest := rfl
    by_cases hp : p.2.is_same d = true
    · have hpd : p.2 = d := (CppItemData.is_same_iff_eq p.2 d).mp hp
      have hlook : lookupFact (addCppItem items p.1 p.2).2 d =
          match lookupFact items d with
          | some e => some { e with source := sourceStep e.source p.1 }
          | none => some ⟨d, p.1, []⟩ := by
        rw [hpd]
        exact lookupFact_addCppItem_same items p.1 d
      rw [hstep, ih, hlook, classSources_cons p rest d]
      cases h : lookupFact items d with
      | none => simp [hp, resolveSources_cons]
      | some e => simp [hp, resolveSources_cons]
    · have hp2 : p.2.is_same d = false := by
        cases hb : p.2.is_same d
        · rfl
        · exact absurd hb hp
      have hlook : lookupFact (addCppItem items p.1 p.2).2 d = lookupFact items d :=
        lookupFact_addCppItem_other items p.1 p.2 d hp2
      rw [hstep, ih, hlook, classSources_cons p rest d]
      simp [hp2]

theorem itemsInv_itemsIngest (l : List (DatabaseItemSource × CppItemData))
    (items : List DatabaseItem) (h : ItemsInv items) : ItemsInv (itemsIngest items l) := by
  induction l generalizing items with
  | nil => exact h
  | cons p rest ih => exact ih _ (itemsInv_addCppItem items p.1 p.2 h)

theorem pairs_mem_iff (items : List DatabaseItem) (hinv : ItemsInv items)
    (d : CppItemData) (s : DatabaseItemSource) :
    ((d, s) ∈ items.map (fun i => (i.cpp_data, i.source))) ↔
      ∃ m, lookupFact items d = some ⟨d, s, m⟩ := by
  constructor
  · intro hmem
    induction items with
    | nil => simp at hmem
    | cons i rest ih =>
      rcases (List.pairwise_cons.mp hinv) with ⟨hhead, hrest⟩
      rcases List.mem_cons.mp hmem with heq | hmem2
      · have hd : i.cpp_data = d := congrArg Prod.fst heq.symm
        have hs : i.source = s := congrArg Prod.snd heq.symm
        refine ⟨i.cpp_ffi_methods, ?_⟩
        have hsame : i.cpp_data.is_same d = true := by
          rw [hd]; exact CppItemData.is_same_refl d
        simp [lookupFact, hsame]
        cases i
        simp_all
      · rcases ih hrest hmem2 with ⟨m, hm⟩
        refine ⟨m, ?_⟩
        have hnot : i.cpp_data.is_same d = false := by
          by_contra hcon
          have hT : i.cpp_data.is_same d = true := by
            cases hb : i.cpp_data.is_same d
            · exact absurd hb hcon
            · rfl
          have hid : i.cpp_data = d := (CppItemData.is_same_iff_eq i.cpp_data d).mp hT
          have he := lookupFact_some rest d ⟨d, s, m⟩ hm
          have := hhead ⟨d, s, m⟩ he.1
          simp at this
          rw [hid] at this
          exact absurd (CppItemData.is_same_refl d) (by simp [this])
        simp [lookupFact, hnot]
        exact hm
  · rintro ⟨m, hm⟩
    have he := lookupFact_some items d ⟨d, s, m⟩ hm
    exact List.mem_map.mpr ⟨⟨d, s, m⟩, he.1, rfl⟩

/-! ## Order independence of provenance resolution -/

/-- Pairwise agreement of a run of sources: any two parser-discovered
sources coincide and any two non-parser sources coincide. -/
def GoodSrcs (ss : List DatabaseItemSource) : Prop :=
  (∀ a ∈ ss, ∀ b ∈ ss, a.is_parser_source = true → b.is_parser_source = true → a = b) ∧
  (∀ a ∈ ss, ∀ b ∈ ss, a.is_parser_source = false → b.is_parser_source = false → a = b)

theorem resolveSources_parser_head (s : DatabaseItemSource) (ss : List DatabaseItemSource)
    (hs : s.is_parser_source = true) : resolveSources s ss = s := by
  induction ss with
  | nil => rfl
  | cons x rest ih =>
    have hstep : sourceStep s x = s := by simp [sourceStep, hs]
    rw [resolveSources_cons, hstep, ih]

theorem resolveSources_other_head (s : DatabaseItemSource)
    (ss : List DatabaseItemSource) (hs : s.is_parser_source = false) :
    resolveSources s ss =
      match ss.find? (fun x => x.is_parser_source) with
      | some p => p
      | none => s := by
  induction ss generalizing s with
  | nil => rfl
  | cons x rest ih =>
    by_cases hx : x.is_parser_source = true
    · have hstep : sourceStep s x = x := by simp [sourceStep, hx, hs]
      rw [resolveSources_cons, hstep, resolveSources_parser_head x rest hx]
      simp [List.find?, hx]
    · have hx2 : x.is_parser_source = false := by
        cases hb : x.is_parser_source
        · rfl
        · exact absurd hb hx
      have hstep : sourceStep s x = s := by simp [sourceStep, hx2]
      rw [resolveSources_cons, hstep, ih s hs]
      simp [List.find?, hx2]

theorem resolveAll_spec (s : DatabaseItemSource) (ss : List DatabaseItemSource) :
    ∃ r, resolveAll (s :: ss) = some r ∧ r ∈ s :: ss ∧
      ((∃ p ∈ s :: ss, p.is_parser_source = true) → r.is_parser_source = true) := by
  by_cases hs : s.is_parser_source = true
  · refine ⟨s, ?_, List.mem_cons_self s ss, fun _ => hs⟩
    simp [resolveAll, resolveSources_parser_head s ss hs]
  · have hs2 : s.is_parser_source = false := by
      cases hb : s.is_parser_source
      · rfl
      · exact absurd hb hs
    cases hf : ss.find? (fun x => x.is_parser_source) with
    | some p =>
      refine ⟨p, ?_, List.mem_cons_of_mem s (List.mem_of_find?_eq_some hf), ?_⟩
      · simp [resolveAll, resolveSources_other_head s ss hs2, hf]
      · intro _
        have := List.find?_some hf
        simpa using this
    | none =>
      refine ⟨s, ?_, List.mem_cons_self s ss, ?_⟩
      · simp [resolveAll, resolveSources_other_head s ss hs2, hf]
      · rintro ⟨p, hp, hpp⟩
        rcases List.mem_cons.mp hp with rfl | hp2
        · exact hpp
        · have := List.find?_eq_none.mp hf p hp2
          simp [hpp] at this

theorem resolveAll_perm (ss1 ss2 : List DatabaseItemSource) (hperm : ss1.Perm ss2)
    (hgood : GoodSrcs ss1) : resolveAll ss1 = resolveAll ss2 := by
  cases ss1 with
  | nil =>
    have : ss2 = [] := hperm.symm.eq_nil
    rw [this]
  | cons s1 t1 =>
    cases ss2 with
    | nil => exact absurd hperm.eq_nil (by simp)
    | cons s2 t2 =>
      rcases resolveAll_spec s1 t1 with ⟨r1, hr1, hr1mem, hr1par⟩
      rcases resolveAll_spec s2 t2 with ⟨r2, hr2, hr2mem, hr2par⟩
      have hr2mem1 : r2 ∈ s1 :: t1 := hperm.mem_iff.mpr hr2mem
      rw [hr1, hr2]
      by_cases hex : ∃ p ∈ s1 :: t1, p.is_parser_source = true
      · have hex2 : ∃ p ∈ s2 :: t2, p.is_parser_source = true := by
          rcases hex with ⟨p, hp, hpp⟩
          exact ⟨p, hperm.mem_iff.mp hp, hpp⟩
        have h1 : r1.is_parser_source = true := hr1par hex
        have h2 : r2.is_parser_source = true := hr2par hex2
        rw [hgood.1 r1 hr1mem r2 hr2mem1 h1 h2]
      · have hall : ∀ p ∈ s1 :: t1, p.is_parser_source = false := by
          intro p hp
          cases hb : p.is_parser_source
          · rfl
          · exact absurd ⟨p, hp, hb⟩ hex
        rw [hgood.2 r1 hr1mem r2 hr2mem1 (hall r1 hr1mem) (hall r2 hr2mem1)]

theorem classSources_perm (l1 l2 : List (DatabaseItemSource × CppItemData))
    (hperm : l1.Perm l2) (d : CppItemData) :
    (classSources l1 d).Perm (classSources l2 d) := by
  unfold classSources
  exact (hperm.filter (fun p => p.2.is_same d)).map (fun p => p.1)

theorem classSources_mem (l : List (DatabaseItemSource × CppItemData)) (d : CppItemData)
    (a : DatabaseItemSource) (ha : a ∈ classSources l d) :
    ∃ p ∈ l, p.2.is_same d = true ∧ p.1 = a := by
  rcases List.mem_map.mp ha with ⟨p, hp, hpa⟩
  rcases List.mem_filter.mp hp with ⟨hpl, hpd⟩
  exact ⟨p, hpl, by simpa using hpd, hpa⟩

theorem goodSrcs_classSources (l : List (DatabaseItemSource × CppItemData))
    (d : CppItemData) (h : GoodList l) : GoodSrcs (classSources l d) := by
  constructor
  · intro a ha b hb hap hbp
    rcases classSources_mem l d a ha with ⟨p, hpl, hpd, hpa⟩
    rcases classSources_mem l d b hb with ⟨q, hql, hqd, hqb⟩
    have hpq : p.2.is_same q.2 = true := by
      rw [(CppItemData.is_same_iff_eq p.2 d).mp hpd,
        (CppItemData.is_same_iff_eq q.2 d).mp hqd]
      exact CppItemData.is_same_refl d
    have := (h p hpl q hql hpq).2.1 (by rw [hpa]; exact hap) (by rw [hqb]; exact hbp)
    rw [← hpa, ← hqb, this]
  · intro a ha b hb hap hbp
    rcases classSources_mem l d a ha with ⟨p, hpl, hpd, hpa⟩
    rcases classSources_mem l d b hb with ⟨q, hql, hqd, hqb⟩
    have hpq : p.2.is_same q.2 = true := by
      rw [(CppItemData.is_same_iff_eq p.2 d).mp hpd,
        (CppItemData.is_same_iff_eq q.2 d).mp hqd]
      exact CppItemData.is_same_refl d
    have := (h p hpl q hql hpq).2.2 (by rw [hpa]; exact hap) (by rw [hqb]; exact hbp)
    rw [← hpa, ← hqb, this]

/-! ## First-seen order of facts -/

theorem any_map_cpp_data (items : List DatabaseItem) (d : CppItemData) :
    (items.map (fun i => i.cpp_data)).any (fun x => x.is_same d) =
      items.any (fun i => i.cpp_data.is_same d) := by
  induction items with
  | nil => rfl
  | cons i rest ih => simp [List.any_cons, ih]

theorem itemsIngest_map_cpp_data (l : List (DatabaseItemSource × CppItemData))
    (items : List DatabaseItem) :
    (itemsIngest items l).map (fun i => i.cpp_data) =
      l.foldl (fun acc p => if acc.any (fun x => x.is_same p.2) then acc else acc ++ [p.2])
        (items.map (fun i => i.cpp_data)) := by
  induction l generalizing items with
  | nil => rfl
  | cons p rest ih =>
    have hstep : itemsIngest items (p :: rest) = itemsIngest (addCppItem items p.1 p.2).2 rest := rfl
    rw [hstep, ih, List.foldl_cons]
    rw [addCppItem_map_cpp_data items p.1 p.2, any_map_cpp_data items p.2]

/-! ## Order independence: counterexample and amended theorem -/

/-- Counterexample to C3 as stated: two pairs with structurally-equal
facts but two different synthesized origins.  Ingesting the two
permutations of this set yields different (fact, final-provenance) sets:
the first-seen origin wins, so the resulting provenance depends on the
order. -/
theorem ingest_order_dependent_cex :
    ([(DatabaseItemSource.Destructor, CppItemData.Type ⟨"A", .Enum⟩),
        (DatabaseItemSource.TemplateInstantiation, CppItemData.Type ⟨"A", .Enum⟩)].Perm
      [(DatabaseItemSource.TemplateInstantiation, CppItemData.Type ⟨"A", .Enum⟩),
        (DatabaseItemSource.Destructor, CppItemData.Type ⟨"A", .Enum⟩)]) ∧
    (CppItemData.Type ⟨"A", .Enum⟩, DatabaseItemSource.Destructor) ∈
      dbPairs (ingestList (Database.empty "crate0")
        [(DatabaseItemSource.Destructor, CppItemData.Type ⟨"A", .Enum⟩),
          (DatabaseItemSource.TemplateInstantiation, CppItemData.Type ⟨"A", .Enum⟩)]) ∧
    (CppItemData.Type ⟨"A", .Enum⟩, DatabaseItemSource.Destructor) ∉
      dbPairs (ingestList (Database.empty "crate0")
        [(DatabaseItemSource.TemplateInstantiation, CppItemData.Type ⟨"A", .Enum⟩),
          (DatabaseItemSource.Destructor, CppItemData.Type ⟨"A", .Enum⟩)]) := by
  refine ⟨List.Perm.swap _ _ _, ?_, ?_⟩ <;> decide

/-- C3 (amended): ingesting any two permutations of a set of (origin,
fact) pairs yields identical sets of (fact, final-provenance) pairs,
provided that any two pairs with structurally-equal facts carry the same
fact value, equal origins whenever both are parser-discovered, and equal
origins whenever neither is; for each particular permutation the
insertion order equals first-seen order of the facts. -/
theorem ingest_order_independent (n : String)
    (l1 l2 : List (DatabaseItemSource × CppItemData)) (hperm : l1.Perm l2)
    (hgood : GoodList l1) :
    (∀ x, x ∈ dbPairs (ingestList (Database.empty n) l1) ↔
        x ∈ dbPairs (ingestList (Database.empty n) l2)) ∧
    (ingestList (Database.empty n) l1).items.map (fun i => i.cpp_data) =
      firstSeenFacts (l1.map (fun p => p.2)) ∧
    (ingestList (Database.empty n) l2).items.map (fun i => i.cpp_data) =
      firstSeenFacts (l2.map (fun p => p.2)) := by
  have hfs : ∀ l : List (DatabaseItemSource × CppItemData),
      (ingestList (Database.empty n) l).items.map (fun i => i.cpp_data) =
        firstSeenFacts (l.map (fun p => p.2)) := by
    intro l
    rw [ingestList_items]
    show (itemsIngest [] l).map _ = _
    rw [itemsIngest_map_cpp_data]
    unfold firstSeenFacts
    rw [List.foldl_map]
    rfl
  refine ⟨?_, hfs l1, hfs l2⟩
  intro x
  obtain ⟨d, s⟩ := x
  have hinv : ∀ l : List (DatabaseItemSource × CppItemData),
      ItemsInv (ingestList (Database.empty n) l).items := by
    intro l
    rw [ingestList_items]
    exact itemsInv_itemsIngest l [] List.Pairwise.nil
  have hchar : ∀ l : List (DatabaseItemSource × CppItemData),
      lookupFact (ingestList (Database.empty n) l).items d =
        match classSources l d with
        | [] => none
        | s0 :: ss => some ⟨d, resolveSources s0 ss, []⟩ := by
    intro l
    rw [ingestList_items]
    show lookupFact (itemsIngest [] l) d = _
    rw [lookupFact_itemsIngest l [] d]
    rfl
  have heq : resolveAll (classSources l1 d) = resolveAll (classSources l2 d) :=
    resolveAll_perm _ _ (classSources_perm l1 l2 hperm d)
      (goodSrcs_classSources l1 d hgood)
  rw [dbPairs, pairs_mem_iff _ (hinv l1) d s, dbPairs, pairs_mem_iff _ (hinv l2) d s,
    hchar l1, hchar l2]
  cases h1 : classSources l1 d with
  | nil =>
    cases h2 : classSources l2 d with
    | nil => simp
    | cons s2 ss2 =>
      rw [h1, h2] at heq
      simp [resolveAll] at heq
  | cons s1 ss1 =>
    cases h2 : classSources l2 d with
    | nil =>
      rw [h1, h2] at heq
      simp [resolveAll] at heq
    | cons s2 ss2 =>
      rw [h1, h2] at heq
      simp only [resolveAll, Option.some_inj] at heq
      simp [heq]

/-- Witness for C3 (amended): a parser origin and a synthesized origin for
the same fact, in both orders. -/
theorem ingest_order_independent_witness :
    ((CppItemData.Type ⟨"A", .Enum⟩, DatabaseItemSource.CppParser none none) ∈
        dbPairs (ingestList (Database.empty "crate0")
          [(DatabaseItemSource.CppParser none none, CppItemData.Type ⟨"A", .Enum⟩),
            (DatabaseItemSource.Destructor, CppItemData.Type ⟨"A", .Enum⟩)]) ↔
      (CppItemData.Type ⟨"A", .Enum⟩, DatabaseItemSource.CppParser none none) ∈
        dbPairs (ingestList (Database.empty "crate0")
          [(DatabaseItemSource.Destructor, CppItemData.Type ⟨"A", .Enum⟩),
            (DatabaseItemSource.CppParser none none, CppItemData.Type ⟨"A", .Enum⟩)])) ∧
    (ingestList (Database.empty "crate0")
        [(DatabaseItemSource.CppParser none none, CppItemData.Type ⟨"A", .Enum⟩),
          (DatabaseItemSource.Destructor, CppItemData.Type ⟨"A", .Enum⟩)]).items.map
      (fun i => i.cpp_data) =
      firstSeenFacts
        ([(DatabaseItemSource.CppParser none none, CppItemData.Type ⟨"A", .Enum⟩),
            (DatabaseItemSource.Destructor, CppItemData.Type ⟨"A", .Enum⟩)].map
          (fun p => p.2)) := by
  have h := ingest_order_independent "crate0"
    [(DatabaseItemSource.CppParser none none, CppItemData.Type ⟨"A", .Enum⟩),
      (DatabaseItemSource.Destructor, CppItemData.Type ⟨"A", .Enum⟩)]
    [(DatabaseItemSource.Destructor, CppItemData.Type ⟨"A", .Enum⟩),
      (DatabaseItemSource.CppParser none none, CppItemData.Type ⟨"A", .Enum⟩)]
    (List.Perm.swap _ _ _) (by unfold GoodList; decide)
  exact ⟨h.1 _, h.2.1⟩

/-! ## Report rendering of ClassBase facts -/

/-- C8: the rendering of a ClassBase fact is
`class <derived> : [virtual ]<public|protected|private> <base>`, with
`virtual ` present exactly when the base is virtual and the visibility
word chosen by the access visibility, followed by the suffix
` (index: N` exactly when the base index N is greater than 0 (the suffix
is rendered with its unmatched opening parenthesis, as in the source). -/
theorem classbase_display_spec (b : CppBaseSpecifier) :
    (b.base_index = 0 →
      (CppItemData.ClassBase b).toDisplayString =
        "class " ++ b.derived_class_type.to_cpp_pseudo_code ++ " : "
          ++ (if b.is_virtual then "virtual " else "")
          ++ (match b.visibility with
              | .Public => "public"
              | .Protected => "protected"
              | .Private => "private")
          ++ " " ++ b.base_class_type.to_cpp_pseudo_code) ∧
    (0 < b.base_index →
      (CppItemData.ClassBase b).toDisplayString =
        "class " ++ b.derived_class_type.to_cpp_pseudo_code ++ " : "
          ++ (if b.is_virtual then "virtual " else "")
          ++ (match b.visibility with
              | .Public => "public"
              | .Protected => "protected"
              | .Private => "private")
          ++ " " ++ b.base_class_type.to_cpp_pseudo_code
          ++ " (index: " ++ toString b.base_index) := by
  constructor
  · intro h0
    simp [CppItemData.toDisplayString, h0]
  · intro hpos
    have hgt : b.base_index > 0 := hpos
    simp [CppItemData.toDisplayString, hgt, String.append_assoc]

/-- Witness for C8 at a concrete virtual protected base with index 1. -/
theorem classbase_display_spec_witness :
    (CppItemData.ClassBase ⟨⟨"D"⟩, ⟨"B"⟩, true, .Protected, 1⟩).toDisplayString =
      "class D : virtual protected B (index: 1" := by
  have h := (classbase_display_spec ⟨⟨"D"⟩, ⟨"B"⟩, true, .Protected, 1⟩).2 (by decide)
  rw [h]
  rfl

end Ritual
